import Mathlib

/-!
Verification development for the asciigol repository: a shallow embedding of
the Game of Life engine (`src/asciigol.c`, `src/src/asciigol.c`) and of the
configuration codec (`init_cells_from_file` in `src/asciigol.c`,
`write_config` in `src/asciigolgen.c`), together with theorems about them.
-/

set_option maxHeartbeats 1000000

namespace Asciigol

/-- Result codes of the engine, mirroring `asciigol_result_t` in
`src/asciigol.h`. `ok` is the per-step "Ongoing" status. -/
inductive asciigol_result where
  | ok
  | converged
  | badFile
  | badHeader
  | badDimension
  | badCell
deriving DecidableEq, Repr

/-- Transition rule, mirroring `compute_game_of_life` in `src/src/asciigol.c`
(the same four-branch rule chain appears at the end of `compute_cell` in
`src/asciigol.c`). -/
def compute_game_of_life (cell : Bool) (num_live_neighbors : Nat) : Bool :=
  if cell ∧ num_live_neighbors < 2 then false
  else if cell ∧ (num_live_neighbors = 2 ∨ num_live_neighbors = 3) then true
  else if cell ∧ num_live_neighbors > 3 then false
  else if ¬cell ∧ num_live_neighbors = 3 then true
  else false

/-- The inclusive integer range `[lo, hi]` visited by a C `for` loop
`for (r = lo; r <= hi; r++)`. -/
def intRange (lo hi : Int) : List Int :=
  (List.range (hi + 1 - lo).toNat).map (fun (k : Nat) => lo + (k : Int))

/-- Index adjustment for wraparound, mirroring the `neighbor_row` /
`neighbor_col` computation in `count_live_neighbors` of `src/src/asciigol.c`:
`-1` becomes `n - 1`, `n` becomes `0`, anything else is kept. -/
def wrapIdx (i : Int) (n : Nat) : Nat :=
  if i = -1 then n - 1
  else if i = (n : Int) then 0
  else i.toNat

/-- Neighbor counting, mirroring `count_live_neighbors` in
`src/src/asciigol.c` (inlined in `compute_cell` in `src/asciigol.c`).
The cell buffer is modelled as a function from flat row-major indices to
booleans; the C code reads `(*cells)[width * neighbor_row + neighbor_col]`. -/
def count_live_neighbors (cells : Nat → Bool) (row col width height : Nat)
    (wrap : Bool) : Nat :=
  let row_begin : Int := if row ≠ 0 ∨ wrap then (row : Int) - 1 else row
  let col_begin : Int := if col ≠ 0 ∨ wrap then (col : Int) - 1 else col
  let row_end : Int := if (row : Int) < (height : Int) - 1 ∨ wrap then (row : Int) + 1 else row
  let col_end : Int := if (col : Int) < (width : Int) - 1 ∨ wrap then (col : Int) + 1 else col
  (intRange row_begin row_end).foldl (fun acc r =>
    let neighbor_row := wrapIdx r height
    (intRange col_begin col_end).foldl (fun acc2 c =>
      let neighbor_col := wrapIdx c width
      if cells (width * neighbor_row + neighbor_col) ∧
          (neighbor_row ≠ row ∨ neighbor_col ≠ col)
      then acc2 + 1 else acc2) acc) 0

/-- One cell of the next generation, mirroring `compute_cell` in
`src/src/asciigol.c` (and the body of `compute_cell` in `src/asciigol.c`). -/
def compute_cell (cells : Nat → Bool) (row col width height : Nat)
    (wrap : Bool) : Bool :=
  compute_game_of_life (cells (width * row + col))
    (count_live_neighbors cells row col width height wrap)

/-- One generation step, mirroring `compute_cells` in `src/asciigol.c`:
a single loop over all flat indices that writes the new buffer and tracks
whether any cell changed; the returned status is `converged` when no cell
changed and `ok` ("Ongoing") otherwise. -/
def compute_cells (cells : Nat → Bool) (width height : Nat) (wrap : Bool) :
    List Bool × asciigol_result :=
  let size := width * height
  let p := (List.range size).foldl
    (fun (st : List Bool × Bool) i =>
      let cell := cells i
      let new_cell := compute_cell cells (i / width) (i % width) width height wrap
      (st.1 ++ [new_cell], st.2 && (cell == new_cell)))
    ([], true)
  (p.1, if p.2 then .converged else .ok)

/-- Whitespace predicate of the C `isspace` classification, which `sscanf`
uses to skip characters before a conversion. -/
def isSpaceC (c : Char) : Bool :=
  c.toNat == 32 || c.toNat == 9 || c.toNat == 10 || c.toNat == 11 ||
    c.toNat == 12 || c.toNat == 13

/-- Decimal digit predicate of the C `isdigit` classification. -/
def isDigitC (c : Char) : Bool :=
  48 ≤ c.toNat && c.toNat ≤ 57

/-- Numeric value of a decimal digit character. -/
def digitVal (c : Char) : Nat := c.toNat - 48

/-- Decimal digit character for a value below ten. -/
def digitChar (d : Nat) : Char :=
  match d with
  | 0 => '0' | 1 => '1' | 2 => '2' | 3 => '3' | 4 => '4'
  | 5 => '5' | 6 => '6' | 7 => '7' | 8 => '8' | _ => '9'

/-- Body of `getline`: the consumed line including its terminating newline
when one is present, together with the remaining stream. -/
def getlineGo : List Char → List Char × List Char
  | [] => ([], [])
  | c :: cs =>
    if c = '\n' then ([c], cs)
    else
      let p := getlineGo cs
      (c :: p.1, p.2)

/-- POSIX `getline` on a character stream: `none` models the non-positive
return value at end of stream, otherwise the line read (up to and including
the first newline, or to end of stream) and the rest. -/
def getline (s : List Char) : Option (List Char × List Char) :=
  match s with
  | [] => none
  | _ => some (getlineGo s)

/-- Leading-whitespace removal, as performed by a `sscanf` numeric
conversion. -/
def skipWs : List Char → List Char
  | [] => []
  | c :: cs => if isSpaceC c then skipWs cs else c :: cs

/-- Maximal digit run: accumulates the decimal value left to right and stops
at the first non-digit character. -/
def parseDigits : List Char → Nat → Nat × List Char
  | [], acc => (acc, [])
  | c :: cs, acc =>
    if isDigitC c then parseDigits cs (acc * 10 + digitVal c) else (acc, c :: cs)

/-- One `%d` conversion of `sscanf`: skip whitespace, accept an optional
sign, then require at least one digit; `none` models a matching failure. -/
def parseDec (s : List Char) : Option (Int × List Char) :=
  match skipWs s with
  | [] => none
  | c :: cs =>
    if c = '-' then
      match cs with
      | [] => none
      | d :: ds =>
        if isDigitC d then
          let p := parseDigits ds (digitVal d)
          some (-(p.1 : Int), p.2)
        else none
    else if c = '+' then
      match cs with
      | [] => none
      | d :: ds =>
        if isDigitC d then
          let p := parseDigits ds (digitVal d)
          some ((p.1 : Int), p.2)
        else none
    else if isDigitC c then
      let p := parseDigits cs (digitVal c)
      some ((p.1 : Int), p.2)
    else none

/-- The call `sscanf(line, "%d,%d", ...)` in `init_cells_from_file` of
`src/asciigol.c`: two decimal conversions separated by a literal comma.
`some` corresponds to a return value of at least 2; trailing characters
after the second conversion are ignored. -/
def sscanf_dd_second (a : Int) (r2 : List Char) : Option (Int × Int) :=
  match parseDec r2 with
  | none => none
  | some (b, _) => some (a, b)

/-- After the first conversion, the format string requires a literal comma
before the second conversion. -/
def sscanf_dd_after (a : Int) (r1 : List Char) : Option (Int × Int) :=
  match r1 with
  | [] => none
  | c :: r2 => if c = ',' then sscanf_dd_second a r2 else none

def sscanf_dd (s : List Char) : Option (Int × Int) :=
  match parseDec s with
  | none => none
  | some (a, r1) => sscanf_dd_after a r1

/-- Dimension-line validation of `init_cells_from_file` in `src/asciigol.c`:
the line must `sscanf` as two integers, both strictly positive and within
`MAX_WIDTH` (250) and `MAX_HEIGHT` (100). -/
def checkDims (line : List Char) : Except asciigol_result (Nat × Nat) :=
  match sscanf_dd line with
  | none => .error .badDimension
  | some (temp_width, temp_height) =>
    if temp_width ≤ 0 ∨ temp_width > 250 ∨ temp_height ≤ 0 ∨ temp_height > 100
    then .error .badDimension
    else .ok (temp_width.toNat, temp_height.toNat)

/-- The character-by-character cell-reading loop of `init_cells_from_file`
in `src/asciigol.c`: `row` and `col` track the current position, cell values
are appended in flat row-major order, and a row is only counted once its
terminating newline is consumed; at end of stream, fewer completed rows than
`height` is a dimension error. -/
def readCells (width height : Nat) :
    List Char → Nat → Nat → List Bool → Except asciigol_result (List Bool)
  | [], row, _, cells =>
    if row < height then .error .badDimension else .ok cells
  | character :: rest, row, col, cells =>
    if row ≥ height then .error .badDimension
    else if character = '\n' then
      if col < width then .error .badDimension
      else readCells width height rest (row + 1) 0 cells
    else if character ≠ '0' ∧ character ≠ '1' then .error .badCell
    else if col + 1 > width then .error .badDimension
    else readCells width height rest row (col + 1) (cells ++ [character == '1'])

/-- Characters of the literal header line of the config format. -/
def headerChars : List Char := "asciigol\n".toList

/-- The config decoder `init_cells_from_file` of `src/asciigol.c` on an
already-opened stream, split into its sequential stages: header check,
dimension check, then the cell loop. The option component of the result
models the `cells` out-parameter as observed by the caller after the EXIT
cleanup, which frees the partially filled buffer and nulls the reference on
every failure path. -/
def parse_body (width height : Nat) (rest2 : List Char) :
    asciigol_result × Option (Nat × Nat × List Bool) :=
  match readCells width height rest2 0 0 [] with
  | .error e => (e, none)
  | .ok cells => (.ok, some (width, height, cells))

def parse_afterDims (line2 rest2 : List Char) :
    asciigol_result × Option (Nat × Nat × List Bool) :=
  match checkDims line2 with
  | .error e => (e, none)
  | .ok (width, height) => parse_body width height rest2

def parse_afterHeader (rest1 : List Char) :
    asciigol_result × Option (Nat × Nat × List Bool) :=
  match getline rest1 with
  | none => (.badDimension, none)
  | some (line2, rest2) => parse_afterDims line2 rest2

def parse_stream (s : List Char) : asciigol_result × Option (Nat × Nat × List Bool) :=
  match getline s with
  | none => (.badHeader, none)
  | some (line1, rest1) =>
    if line1 = headerChars then parse_afterHeader rest1
    else (.badHeader, none)

/-- Config decode including `fopen`: a `none` input models a missing or
unreadable file, reported as `badFile` before any content validation. -/
def init_cells_from_file (input : Option (List Char)) :
    asciigol_result × Option (Nat × Nat × List Bool) :=
  match input with
  | none => (.badFile, none)
  | some s => parse_stream s

/-- Decimal digits of a number as written by `fprintf` with a `%u`
conversion. -/
def toChars (n : Nat) : List Char :=
  if h : n < 10 then [digitChar n]
  else toChars (n / 10) ++ [digitChar (n % 10)]
decreasing_by omega

/-- The cell-writing loop of `write_config` in `src/asciigolgen.c`: one
character per cell, the live character for alive and the dead character for
dead, with a newline after every `width` cells (`i % width == width - 1`). -/
def write_cells (cells : List Bool) (width : Nat) (i : Nat) : List Char :=
  match cells with
  | [] => []
  | cell :: rest =>
    let ch := if cell then '1' else '0'
    if i % width = width - 1 then ch :: '\n' :: write_cells rest width (i + 1)
    else ch :: write_cells rest width (i + 1)

/-- The encoder `write_config` of `src/asciigolgen.c`: the literal header
line, then the dimension line, then the cell rows. -/
def write_config (cells : List Bool) (width height : Nat) : List Char :=
  headerChars ++ toChars width ++ ',' :: toChars height ++ '\n' :: write_cells cells width 0

/-- Row of cell characters for a row of boolean cells. -/
def encRow (r : List Bool) : List Char :=
  r.map (fun b => if b then '1' else '0')

/-- Stream of rows each terminated by a newline, as the encoder writes them. -/
def joinRowsNL (rows : List (List Char)) : List Char :=
  (rows.map (fun r => r ++ ['\n'])).flatten

/-- Stream of rows separated by newlines, with none after the final row. -/
def joinRowsNoNL : List (List Char) → List Char
  | [] => []
  | [r] => r
  | r :: rs => r ++ '\n' :: joinRowsNoNL rs

/-- The 3-by-3 grid whose rows are 000, 011, 011: a 2-by-2 block in the
bottom-right corner, in flat row-major indexing. -/
def blockGrid : Nat → Bool := fun i => decide (i = 4 ∨ i = 5 ∨ i = 7 ∨ i = 8)

/-- The 5-by-5 blinker grid: row 2 is 01110, all other cells dead, in flat
row-major indexing. -/
def blinkerGrid : Nat → Bool := fun i => decide (i = 11 ∨ i = 12 ∨ i = 13)

/-- Unfolding the single loop of `compute_cells` into its two observable
components: the list of new cells and the all-cells-unchanged flag. -/
theorem foldl_step_eq (new old : Nat → Bool) (l : List Nat)
    (acc : List Bool) (b : Bool) :
    l.foldl (fun (st : List Bool × Bool) i =>
        (st.1 ++ [new i], st.2 && (old i == new i))) (acc, b)
    = (acc ++ l.map new, b && l.all (fun i => old i == new i)) := by
  induction l generalizing acc b with
  | nil => simp
  | cons x xs ih => simp [ih, Bool.and_assoc]

/-- Closed form of `compute_cells`: the new buffer is the pointwise image of
`compute_cell` over the flat index range, and the status is `converged`
exactly when every cell is unchanged. -/
theorem compute_cells_eq (cells : Nat → Bool) (w h : Nat) (wrap : Bool) :
    compute_cells cells w h wrap =
      ((List.range (w * h)).map (fun i => compute_cell cells (i / w) (i % w) w h wrap),
       if (List.range (w * h)).all
            (fun i => cells i == compute_cell cells (i / w) (i % w) w h wrap)
       then .converged else .ok) := by
  simp only [compute_cells]
  rw [foldl_step_eq (fun i => compute_cell cells (i / w) (i % w) w h wrap) cells]
  simp

theorem intRange_length (lo hi : Int) : (intRange lo hi).length = (hi + 1 - lo).toNat := by
  unfold intRange
  rw [List.length_map, List.length_range]

theorem mem_intRange {lo hi x : Int} : x ∈ intRange lo hi ↔ lo ≤ x ∧ x ≤ hi := by
  unfold intRange
  rw [List.mem_map]
  constructor
  · rintro ⟨k, hk, rfl⟩
    rw [List.mem_range] at hk
    omega
  · intro h
    refine ⟨(x - lo).toNat, ?_, ?_⟩
    · rw [List.mem_range]; omega
    · omega

theorem intRange_nodup (lo hi : Int) : (intRange lo hi).Nodup := by
  unfold intRange
  refine List.Nodup.map ?_ (List.nodup_range _)
  intro a b hab
  dsimp only at hab
  omega

/-- A counting loop written as a C `for` with a conditional increment equals
the count of elements satisfying the condition. -/
theorem foldl_count {α : Type} (p : α → Prop) [DecidablePred p] (l : List α) (acc : Nat) :
    l.foldl (fun a x => if p x then a + 1 else a) acc
      = acc + l.countP (fun x => decide (p x)) := by
  induction l generalizing acc with
  | nil => simp
  | cons x xs ih => by_cases h : p x <;> simp [h, ih, List.countP_cons] <;> omega

theorem foldl_add_sum {α : Type} (g : α → Nat) (l : List α) (acc : Nat) :
    l.foldl (fun a x => a + g x) acc = acc + (l.map g).sum := by
  induction l generalizing acc with
  | nil => simp
  | cons x xs ih => simp [ih]; omega

/-- On an index already inside the grid, the wraparound adjustment is the
identity, so it hits a given in-range index exactly when equal to it. -/
theorem wrapIdx_id_iff {r : Int} {n idx : Nat} (h0 : 0 ≤ r) (hn : r < (n : Int))
    (hidx : idx < n) : wrapIdx r n = idx ↔ r = (idx : Int) := by
  unfold wrapIdx
  split_ifs <;> omega

theorem countP_ne_of_nodup {l : List Int} (hnd : l.Nodup) {x : Int} (hx : x ∈ l) :
    l.countP (fun y => decide (y ≠ x)) = l.length - 1 := by
  induction l with
  | nil => cases hx
  | cons y ys ih =>
    rw [List.nodup_cons] at hnd
    rcases List.mem_cons.mp hx with h | h
    · subst h
      have hys : ys.countP (fun z => decide (z ≠ x)) = ys.length := by
        rw [List.countP_eq_length]
        intro a ha
        simp only [decide_eq_true_eq]
        exact fun he => hnd.1 (he ▸ ha)
      rw [List.countP_cons, hys]
      norm_num
    · have hyx : y ≠ x := fun he => hnd.1 (he ▸ h)
      have hlen : 1 ≤ ys.length := List.length_pos.mpr (List.ne_nil_of_mem h)
      rw [List.countP_cons, ih hnd.2 h]
      have hp : (decide (y ≠ x)) = true := by simp [hyx]
      rw [hp]
      simp only [if_true, List.length_cons]
      omega

theorem sum_map_ite_eq {l : List Int} (hnd : l.Nodup) {x : Int} (hx : x ∈ l) (a b : Nat) :
    (l.map (fun r => if r = x then a else b)).sum = a + b * (l.length - 1) := by
  induction l with
  | nil => cases hx
  | cons y ys ih =>
    rw [List.nodup_cons] at hnd
    rcases List.mem_cons.mp hx with h | h
    · subst h
      have hys : ys.map (fun r => if r = x then a else b) = ys.map (fun _ => b) := by
        rw [List.map_inj_left]
        intro r hr
        exact if_neg (fun he : r = x => hnd.1 (he ▸ hr))
      rw [List.map_cons, if_pos rfl, List.sum_cons, hys, List.map_const', List.sum_replicate,
        List.length_cons, smul_eq_mul, Nat.add_sub_cancel, Nat.mul_comm]
    · have hyx : y ≠ x := fun he => hnd.1 (he ▸ h)
      have hlen : 1 ≤ ys.length := List.length_pos.mpr (List.ne_nil_of_mem h)
      rw [List.map_cons, if_neg hyx, List.sum_cons, ih hnd.2 h, List.length_cons,
        Nat.add_sub_cancel]
      obtain ⟨k, hk⟩ := Nat.exists_eq_add_of_le hlen
      rw [hk]
      have e1 : b * (1 + k - 1) = b * k := by norm_num
      have e2 : b * (1 + k) = b + b * k := by ring
      omega

/-- Core count for an all-alive buffer: when every adjusted neighbor index
hits the center row (resp. column) only at the center itself, the loop counts
every visited position except the center once. -/
theorem cln_allAlive (cells : Nat → Bool) (row col w h : Nat) (wrap : Bool)
    (hcells : ∀ i, cells i = true)
    (rb re cb ce : Int)
    (hrb : rb = (if row ≠ 0 ∨ wrap then (row : Int) - 1 else (row : Int)))
    (hre : re = (if (row : Int) < (h : Int) - 1 ∨ wrap then (row : Int) + 1 else (row : Int)))
    (hcb : cb = (if col ≠ 0 ∨ wrap then (col : Int) - 1 else (col : Int)))
    (hce : ce = (if (col : Int) < (w : Int) - 1 ∨ wrap then (col : Int) + 1 else (col : Int)))
    (hrow : ∀ r ∈ intRange rb re, (wrapIdx r h = row ↔ r = (row : Int)))
    (hcol : ∀ c ∈ intRange cb ce, (wrapIdx c w = col ↔ c = (col : Int)))
    (hrmem : (row : Int) ∈ intRange rb re)
    (hcmem : (col : Int) ∈ intRange cb ce) :
    count_live_neighbors cells row col w h wrap =
      (intRange rb re).length * (intRange cb ce).length - 1 := by
  simp only [count_live_neighbors, ← hrb, ← hre, ← hcb, ← hce]
  simp only [foldl_count]
  rw [foldl_add_sum]
  rw [Nat.zero_add]
  have hmap : (intRange rb re).map (fun r => (intRange cb ce).countP
        (fun c => decide (cells (w * wrapIdx r h + wrapIdx c w) = true ∧
          (wrapIdx r h ≠ row ∨ wrapIdx c w ≠ col))))
      = (intRange rb re).map (fun r => if r = (row : Int)
          then (intRange cb ce).length - 1 else (intRange cb ce).length) := by
    rw [List.map_inj_left]
    intro r hr
    by_cases hrr : r = (row : Int)
    · rw [if_pos hrr]
      have hwr : wrapIdx r h = row := (hrow r hr).mpr hrr
      rw [List.countP_congr (fun c hc => ?_)]
      · exact countP_ne_of_nodup (intRange_nodup cb ce) hcmem
      · simp only [decide_eq_true_eq]
        constructor
        · intro hand
          rcases hand.2 with hl | hr2
          · exact absurd hwr hl
          · exact fun hcc => hr2 ((hcol c hc).mpr hcc)
        · intro hne
          exact ⟨hcells _, Or.inr (fun hwc => hne ((hcol c hc).mp hwc))⟩
    · rw [if_neg hrr]
      rw [List.countP_eq_length]
      intro c hc
      simp only [hcells, true_and, decide_eq_true_eq]
      left
      intro hwr
      exact hrr ((hrow r hr).mp hwr)
  rw [hmap, sum_map_ite_eq (intRange_nodup rb re) hrmem]
  have h1 : 1 ≤ (intRange rb re).length := List.length_pos.mpr (List.ne_nil_of_mem hrmem)
  have h2 : 1 ≤ (intRange cb ce).length := List.length_pos.mpr (List.ne_nil_of_mem hcmem)
  obtain ⟨k, hk⟩ := Nat.exists_eq_add_of_le h1
  obtain ⟨m, hm⟩ := Nat.exists_eq_add_of_le h2
  rw [hk, hm]
  have e0 : 1 + k - 1 = k := by omega
  have e3 : 1 + m - 1 = m := by omega
  rw [e0, e3]
  have e1 : (1 + m) * k = m * k + k := by ring
  have e2 : (1 + k) * (1 + m) = m * k + k + m + 1 := by ring
  omega

/-- Clipped-neighborhood count on an all-alive buffer with wrap disabled,
with the row-span and column-span sizes given explicitly. -/
theorem cln_allAlive_nowrap (w h row col : Nat) (hh : 1 ≤ h) (hw : 1 ≤ w)
    (hrow : row < h) (hcol : col < w) (a b : Nat)
    (ha : ((if (row : Int) < (h : Int) - 1 then (row : Int) + 1 else (row : Int)) + 1 -
      (if row ≠ 0 then (row : Int) - 1 else (row : Int))).toNat = a)
    (hb : ((if (col : Int) < (w : Int) - 1 then (col : Int) + 1 else (col : Int)) + 1 -
      (if col ≠ 0 then (col : Int) - 1 else (col : Int))).toNat = b) :
    count_live_neighbors (fun _ => true) row col w h false = a * b - 1 := by
  rw [cln_allAlive (fun _ => true) row col w h false (fun _ => rfl)
      (if row ≠ 0 then (row : Int) - 1 else (row : Int))
      (if (row : Int) < (h : Int) - 1 then (row : Int) + 1 else (row : Int))
      (if col ≠ 0 then (col : Int) - 1 else (col : Int))
      (if (col : Int) < (w : Int) - 1 then (col : Int) + 1 else (col : Int))
      (by simp) (by simp) (by simp) (by simp) ?_ ?_ ?_ ?_]
  · rw [intRange_length, intRange_length, ha, hb]
  · intro r hr
    rw [mem_intRange] at hr
    refine wrapIdx_id_iff ?_ ?_ hrow
    · rcases hr with ⟨h1, h2⟩
      split_ifs at h1 <;> omega
    · rcases hr with ⟨h1, h2⟩
      split_ifs at h2 <;> omega
  · intro c hc
    rw [mem_intRange] at hc
    refine wrapIdx_id_iff ?_ ?_ hcol
    · rcases hc with ⟨h1, h2⟩
      split_ifs at h1 <;> omega
    · rcases hc with ⟨h1, h2⟩
      split_ifs at h2 <;> omega
  · rw [mem_intRange]
    refine ⟨?_, ?_⟩ <;> split_ifs <;> omega
  · rw [mem_intRange]
    refine ⟨?_, ?_⟩ <;> split_ifs <;> omega

/-- C1: The transition function is the canonical Game of Life rule: for every
boolean cell state and every neighbor count n, a live cell yields alive iff
n is 2 or 3, and a dead cell yields alive iff n is exactly 3; the result is a
function of these two inputs only. -/
theorem compute_game_of_life_canonical (cell : Bool) (n : Nat) :
    compute_game_of_life cell n = true ↔
      ((cell = true ∧ (n = 2 ∨ n = 3)) ∨ (cell = false ∧ n = 3)) := by
  cases cell <;> simp only [compute_game_of_life] <;> split_ifs <;> simp_all <;> omega

/-- C2: For every well-formed grid and wrap flag, the step operation reports
`converged` iff the newly computed generation is cell-wise identical to the
current one, and any non-converged step reports `ok` (Ongoing). -/
theorem compute_cells_converged_iff (cells : Nat → Bool) (w h : Nat) (wrap : Bool)
    (hw : 1 ≤ w) (hh : 1 ≤ h) :
    ((compute_cells cells w h wrap).2 = .converged ↔
      (compute_cells cells w h wrap).1 = (List.range (w * h)).map cells) ∧
    ((compute_cells cells w h wrap).2 ≠ .converged →
      (compute_cells cells w h wrap).2 = .ok) := by
  rw [compute_cells_eq]
  cases hA : (List.range (w * h)).all
      (fun i => cells i == compute_cell cells (i / w) (i % w) w h wrap) with
  | true =>
    simp only [List.all_eq_true, beq_iff_eq] at hA
    refine ⟨?_, ?_⟩
    · simp only [hA, if_true]
      constructor
      · intro _
        rw [List.map_inj_left]
        intro a ha
        exact (hA a ha).symm
      · intro _; trivial
    · simp
  | false =>
    refine ⟨?_, ?_⟩
    · simp only [hA, if_false]
      constructor
      · intro hcontra; exact absurd hcontra (by simp)
      · intro hmap
        rw [List.map_inj_left] at hmap
        have : (List.range (w * h)).all
            (fun i => cells i == compute_cell cells (i / w) (i % w) w h wrap) = true := by
          simp only [List.all_eq_true, beq_iff_eq]
          intro a ha
          exact (hmap a ha).symm
        rw [hA] at this
        exact absurd this (by simp)
    · simp

/-- Witness for C2: at the 5-by-5 blinker with wrap disabled, the step is not
a fixed point, so the reported status is `ok` (Ongoing), not `converged`. -/
theorem compute_cells_converged_iff_witness :
    (compute_cells blinkerGrid 5 5 false).2 = .ok := by
  have h := compute_cells_converged_iff blinkerGrid 5 5 false (by decide) (by decide)
  have hne : (compute_cells blinkerGrid 5 5 false).1 ≠
      (List.range (5 * 5)).map blinkerGrid := by decide
  exact h.2 (fun hc => hne (h.1.mp hc))

/-- C8: On the 3-by-3 grid whose rows are 000, 011, 011 (a 2-by-2 block in a
corner), one step with wrap disabled reports `converged` and the output
generation is cell-wise identical to the input. -/
theorem block_step_converged :
    (compute_cells blockGrid 3 3 false).2 = .converged ∧
    (compute_cells blockGrid 3 3 false).1 = (List.range (3 * 3)).map blockGrid := by
  decide

/-- C3: With wrap disabled, out-of-range neighbor positions are excluded from
the count entirely, shrinking the neighborhood at the boundary: on a grid with
every cell alive, a corner cell counts 3 live neighbors, an edge non-corner
cell counts 5, and an interior cell counts 8. -/
theorem count_live_neighbors_nowrap_counts (w h row col : Nat)
    (hw : 2 ≤ w) (hh : 2 ≤ h) (hrow : row < h) (hcol : col < w) :
    (((row = 0 ∨ row = h - 1) ∧ (col = 0 ∨ col = w - 1)) →
      count_live_neighbors (fun _ => true) row col w h false = 3) ∧
    ((((row = 0 ∨ row = h - 1) ∧ 1 ≤ col ∧ col ≤ w - 2) ∨
      ((col = 0 ∨ col = w - 1) ∧ 1 ≤ row ∧ row ≤ h - 2)) →
      count_live_neighbors (fun _ => true) row col w h false = 5) ∧
    ((1 ≤ row ∧ row ≤ h - 2 ∧ 1 ≤ col ∧ col ≤ w - 2) →
      count_live_neighbors (fun _ => true) row col w h false = 8) := by
  refine ⟨?_, ?_, ?_⟩
  · intro hcase
    rw [cln_allAlive_nowrap w h row col (by omega) (by omega) hrow hcol 2 2
      (by split_ifs <;> omega) (by split_ifs <;> omega)]
  · intro hcase
    rcases hcase with hcase | hcase
    · rw [cln_allAlive_nowrap w h row col (by omega) (by omega) hrow hcol 2 3
        (by split_ifs <;> omega) (by split_ifs <;> omega)]
    · rw [cln_allAlive_nowrap w h row col (by omega) (by omega) hrow hcol 3 2
        (by split_ifs <;> omega) (by split_ifs <;> omega)]
  · intro hcase
    rw [cln_allAlive_nowrap w h row col (by omega) (by omega) hrow hcol 3 3
      (by split_ifs <;> omega) (by split_ifs <;> omega)]

/-- Witness for C3 on a concrete 4-by-4 all-alive grid: the corner cell at
row 0 column 0 counts 3, the edge cell at row 0 column 2 counts 5, and the
interior cell at row 2 column 2 counts 8. -/
theorem count_live_neighbors_nowrap_counts_witness :
    count_live_neighbors (fun _ => true) 0 0 4 4 false = 3 ∧
    count_live_neighbors (fun _ => true) 0 2 4 4 false = 5 ∧
    count_live_neighbors (fun _ => true) 2 2 4 4 false = 8 :=
  ⟨(count_live_neighbors_nowrap_counts 4 4 0 0 (by norm_num) (by norm_num)
      (by norm_num) (by norm_num)).1 (by norm_num),
   (count_live_neighbors_nowrap_counts 4 4 0 2 (by norm_num) (by norm_num)
      (by norm_num) (by norm_num)).2.1 (by norm_num),
   (count_live_neighbors_nowrap_counts 4 4 2 2 (by norm_num) (by norm_num)
      (by norm_num) (by norm_num)).2.2 (by norm_num)⟩

/-- C4: With wrap enabled, out-of-range neighbor indices wrap around modulo
the grid dimensions and the center cell is excluded from its own count, so on
a grid with every cell alive and both dimensions at least 3, every cell,
corners included, counts exactly 8 live neighbors. -/
theorem count_live_neighbors_wrap_eight (w h row col : Nat)
    (hw : 3 ≤ w) (hh : 3 ≤ h) (hrow : row < h) (hcol : col < w) :
    count_live_neighbors (fun _ => true) row col w h true = 8 := by
  rw [cln_allAlive (fun _ => true) row col w h true (fun _ => rfl)
      ((row : Int) - 1) ((row : Int) + 1) ((col : Int) - 1) ((col : Int) + 1)
      (by simp) (by simp) (by simp) (by simp) ?_ ?_ ?_ ?_]
  · rw [intRange_length, intRange_length]
    have e1 : ((row : Int) + 1 + 1 - ((row : Int) - 1)).toNat = 3 := by omega
    have e2 : ((col : Int) + 1 + 1 - ((col : Int) - 1)).toNat = 3 := by omega
    rw [e1, e2]
  · intro r hr
    rw [mem_intRange] at hr
    unfold wrapIdx
    split_ifs <;> omega
  · intro c hc
    rw [mem_intRange] at hc
    unfold wrapIdx
    split_ifs <;> omega
  · rw [mem_intRange]
    omega
  · rw [mem_intRange]
    omega

/-- Witness for C4: the corner cell of an all-alive 3-by-3 grid with wrap
enabled counts 8 live neighbors. -/
theorem count_live_neighbors_wrap_eight_witness :
    count_live_neighbors (fun _ => true) 0 0 3 3 true = 8 :=
  count_live_neighbors_wrap_eight 3 3 0 0 (by norm_num) (by norm_num)
    (by norm_num) (by norm_num)

/-- The ten digit characters are digits and carry their own value. -/
theorem digitChar_spec : ∀ d, d < 10 →
    isDigitC (digitChar d) = true ∧ digitVal (digitChar d) = d := by
  decide

theorem digit_ne_sign {d : Char} (h : isDigitC d = true) : d ≠ '-' ∧ d ≠ '+' := by
  simp only [isDigitC, Bool.and_eq_true, decide_eq_true_eq] at h
  constructor <;> intro he <;> subst he <;> revert h <;> decide

theorem not_space_of_digit {c : Char} (h : isDigitC c = true) : isSpaceC c = false := by
  simp only [isDigitC, Bool.and_eq_true, decide_eq_true_eq] at h
  simp only [isSpaceC, Bool.or_eq_false_iff, beq_eq_false_iff_ne, ne_eq]
  omega

theorem skipWs_digit_head (c : Char) (cs : List Char) (h : isDigitC c = true) :
    skipWs (c :: cs) = c :: cs := by
  simp only [skipWs, not_space_of_digit h]
  simp

theorem getlineGo_append_newline (xs rest : List Char) (hx : '\n' ∉ xs) :
    getlineGo (xs ++ '\n' :: rest) = (xs ++ ['\n'], rest) := by
  induction xs with
  | nil => simp [getlineGo]
  | cons c cs ih =>
    rw [List.mem_cons, not_or] at hx
    rw [List.cons_append]
    simp only [getlineGo]
    rw [if_neg (Ne.symm hx.1), ih hx.2]
    simp

theorem getline_eq_go (s : List Char) (hne : s ≠ []) : getline s = some (getlineGo s) := by
  cases s with
  | nil => exact absurd rfl hne
  | cons c cs => rfl

theorem getline_append_newline (xs rest : List Char) (hx : '\n' ∉ xs) :
    getline (xs ++ '\n' :: rest) = some (xs ++ ['\n'], rest) := by
  rw [getline_eq_go _ (by simp), getlineGo_append_newline xs rest hx]

theorem toChars_ne_nil (n : Nat) : toChars n ≠ [] := by
  rw [toChars]
  split_ifs <;> simp

theorem toChars_all_digits (n : Nat) : ∀ c ∈ toChars n, isDigitC c = true := by
  induction n using Nat.strong_induction_on with
  | _ n ih =>
    rw [toChars]
    split_ifs with h
    · intro c hc
      rw [List.mem_singleton] at hc
      subst hc
      exact (digitChar_spec n h).1
    · intro c hc
      rw [List.mem_append] at hc
      rcases hc with hc | hc
      · exact ih (n / 10) (by omega) c hc
      · rw [List.mem_singleton] at hc
        subst hc
        exact (digitChar_spec (n % 10) (by omega)).1

theorem newline_not_mem_toChars (n : Nat) : '\n' ∉ toChars n := by
  intro hmem
  exact absurd (toChars_all_digits n _ hmem) (by decide)

/-- Parsing the decimal rendering of a number continues with its value
accumulated. -/
theorem parseDigits_toChars (n : Nat) : ∀ (rest : List Char) (acc : Nat),
    parseDigits (toChars n ++ rest) acc =
      parseDigits rest (acc * 10 ^ (toChars n).length + n) := by
  induction n using Nat.strong_induction_on with
  | _ n ih =>
    intro rest acc
    rw [toChars]
    split_ifs with h
    · rw [List.singleton_append]
      simp only [parseDigits, (digitChar_spec n h).1, (digitChar_spec n h).2,
        List.length_singleton, pow_one, if_true]
    · rw [List.append_assoc, List.singleton_append,
        ih (n / 10) (by omega) (digitChar (n % 10) :: rest) acc]
      simp only [parseDigits, (digitChar_spec (n % 10) (by omega)).1,
        (digitChar_spec (n % 10) (by omega)).2, if_true]
      congr 1
      rw [List.length_append, List.length_singleton, pow_succ]
      have e : n / 10 * 10 + n % 10 = n := by omega
      ring_nf
      omega

/-- A `%d` conversion on the decimal rendering of a number followed by a
non-digit consumes exactly the rendered digits and yields the number. -/
theorem parseDec_toChars (n : Nat) (c : Char) (rest : List Char) (hc : isDigitC c = false) :
    parseDec (toChars n ++ c :: rest) = some ((n : Int), c :: rest) := by
  obtain ⟨d, ds, hds⟩ := List.exists_cons_of_ne_nil (toChars_ne_nil n)
  have hd : isDigitC d = true :=
    toChars_all_digits n d (by rw [hds]; exact List.mem_cons_self d ds)
  have hp : parseDigits (ds ++ c :: rest) (digitVal d) = (n, c :: rest) := by
    have h0 := parseDigits_toChars n (c :: rest) 0
    rw [hds, List.cons_append] at h0
    simp only [parseDigits, hd, if_true, Nat.zero_mul, Nat.zero_add, hc] at h0
    simpa using h0
  unfold parseDec
  rw [hds, List.cons_append, skipWs_digit_head d _ hd]
  show (if d = '-' then _ else _) = _
  rw [if_neg (digit_ne_sign hd).1, if_neg (digit_ne_sign hd).2, if_pos hd]
  rw [hp]

theorem sscanf_dd_eq_after (s : List Char) (a : Int) (r : List Char)
    (h : parseDec s = some (a, r)) : sscanf_dd s = sscanf_dd_after a r := by
  unfold sscanf_dd
  rw [h]

theorem sscanf_dd_after_comma (a : Int) (r2 : List Char) :
    sscanf_dd_after a (',' :: r2) = sscanf_dd_second a r2 := by
  show (if ',' = ',' then sscanf_dd_second a r2 else none) = sscanf_dd_second a r2
  rw [if_pos rfl]

theorem sscanf_dd_second_eq (x b : Int) (r2 rest2 : List Char)
    (h : parseDec r2 = some (b, rest2)) : sscanf_dd_second x r2 = some (x, b) := by
  unfold sscanf_dd_second
  rw [h]

/-- The dimension line written by the encoder scans back as the same pair of
numbers. -/
theorem sscanf_dd_dim (a b : Nat) :
    sscanf_dd (toChars a ++ ',' :: (toChars b ++ ['\n'])) = some ((a : Int), (b : Int)) := by
  rw [sscanf_dd_eq_after _ (a : Int) (',' :: (toChars b ++ ['\n']))
      (parseDec_toChars a ',' _ (by decide)),
    sscanf_dd_after_comma,
    sscanf_dd_second_eq _ (b : Int) _ ['\n'] ?_]
  have := parseDec_toChars b '\n' [] (by decide)
  simpa using this

theorem checkDims_eq (line : List Char) (a b : Int) (h : sscanf_dd line = some (a, b)) :
    checkDims line =
      if a ≤ 0 ∨ a > 250 ∨ b ≤ 0 ∨ b > 100 then .error .badDimension
      else .ok (a.toNat, b.toNat) := by
  unfold checkDims
  rw [h]

/-- The dimension line written by the encoder passes validation when the
dimensions are in range. -/
theorem checkDims_dim (a b : Nat) (ha1 : 1 ≤ a) (ha2 : a ≤ 250) (hb1 : 1 ≤ b)
    (hb2 : b ≤ 100) :
    checkDims (toChars a ++ ',' :: (toChars b ++ ['\n'])) = .ok (a, b) := by
  rw [checkDims_eq _ (a : Int) (b : Int) (sscanf_dd_dim a b)]
  rw [if_neg (by push_cast; omega)]
  simp

/-- Reading one full row of valid cell characters advances the column by the
row length and appends the decoded cells. -/
theorem readCells_row (wd ht : Nat) (r : List Char) :
    ∀ (rest : List Char) (row col : Nat) (acc : List Bool),
      (∀ ch ∈ r, ch = '0' ∨ ch = '1') → row < ht → col + r.length ≤ wd →
      readCells wd ht (r ++ rest) row col acc =
        readCells wd ht rest row (col + r.length)
          (acc ++ r.map (fun ch => ch == '1')) := by
  induction r with
  | nil =>
    intro rest row col acc _ _ _
    simp
  | cons ch cr ih =>
    intro rest row col acc hval hrow hcol
    have hch : ch = '0' ∨ ch = '1' := hval ch (List.mem_cons_self _ _)
    have hch_ne : ¬ch = '\n' := by rcases hch with h | h <;> subst h <;> decide
    have hch_ok : ¬(ch ≠ '0' ∧ ch ≠ '1') := by
      rcases hch with h | h <;> subst h <;> simp
    have hlen : col + (cr.length + 1) ≤ wd := by simpa using hcol
    rw [List.cons_append]
    simp only [readCells]
    rw [if_neg (by omega), if_neg hch_ne, if_neg hch_ok, if_neg (by omega)]
    rw [ih rest row (col + 1) (acc ++ [ch == '1'])
      (fun c hc => hval c (List.mem_cons_of_mem _ hc)) hrow (by omega)]
    congr 1
    · simp only [List.length_cons]
      omega
    · simp

/-- Consuming the row-terminating newline at a full column resets the column
and counts the row. -/
theorem readCells_newline (wd ht : Nat) (rest : List Char) (row : Nat)
    (acc : List Bool) (hrow : row < ht) :
    readCells wd ht ('\n' :: rest) row wd acc =
      readCells wd ht rest (row + 1) 0 acc := by
  simp only [readCells]
  rw [if_neg (by omega), if_pos (by trivial), if_neg (by omega)]

/-- Reading newline-terminated rows that fill the declared height succeeds
and decodes every cell in order. -/
theorem readCells_joinNL (wd ht : Nat) :
    ∀ (rows : List (List Char)) (row : Nat) (acc : List Bool),
      (∀ r ∈ rows, r.length = wd ∧ ∀ ch ∈ r, ch = '0' ∨ ch = '1') →
      row + rows.length = ht →
      readCells wd ht (joinRowsNL rows) row 0 acc =
        .ok (acc ++ rows.flatten.map (fun ch => ch == '1')) := by
  intro rows
  induction rows with
  | nil =>
    intro row acc _ hht
    have h1 : joinRowsNL ([] : List (List Char)) = [] := rfl
    rw [h1]
    simp only [readCells]
    rw [if_neg (by simp at hht; omega)]
    simp
  | cons r rs ih =>
    intro row acc hval hht
    have hr := hval r (List.mem_cons_self _ _)
    have hht2 : row + (rs.length + 1) = ht := by simpa using hht
    have h1 : joinRowsNL (r :: rs) = r ++ '\n' :: joinRowsNL rs := by
      simp [joinRowsNL]
    rw [h1]
    rw [readCells_row wd ht r _ row 0 acc hr.2 (by omega) (by omega)]
    rw [show 0 + r.length = wd by rw [hr.1]; omega]
    rw [readCells_newline wd ht _ row _ (by omega)]
    rw [ih (row + 1) (acc ++ r.map (fun ch => ch == '1'))
      (fun r2 h2 => hval r2 (List.mem_cons_of_mem _ h2)) (by omega)]
    congr 1
    simp

/-- Reading rows that fill the declared height but whose final row has no
terminating newline leaves the row counter one short and fails. -/
theorem readCells_joinNoNL (wd ht : Nat) :
    ∀ (rows : List (List Char)) (row : Nat) (acc : List Bool),
      rows ≠ [] →
      (∀ r ∈ rows, r.length = wd ∧ ∀ ch ∈ r, ch = '0' ∨ ch = '1') →
      row + rows.length = ht →
      readCells wd ht (joinRowsNoNL rows) row 0 acc = .error .badDimension := by
  intro rows
  induction rows with
  | nil =>
    intro row acc hne
    exact absurd rfl hne
  | cons r rs ih =>
    intro row acc _ hval hht
    have hr := hval r (List.mem_cons_self _ _)
    have hht2 : row + (rs.length + 1) = ht := by simpa using hht
    cases rs with
    | nil =>
      have h1 : joinRowsNoNL [r] = r := rfl
      rw [h1, show r = r ++ ([] : List Char) from (List.append_nil r).symm]
      rw [readCells_row wd ht r [] row 0 acc hr.2 (by omega) (by omega)]
      simp only [readCells]
      rw [if_pos (by simp at hht2; omega)]
    | cons r2 rs2 =>
      have h1 : joinRowsNoNL (r :: r2 :: rs2) = r ++ '\n' :: joinRowsNoNL (r2 :: rs2) := rfl
      rw [h1]
      rw [readCells_row wd ht r _ row 0 acc hr.2 (by omega) (by omega)]
      rw [show 0 + r.length = wd by rw [hr.1]; omega]
      rw [readCells_newline wd ht _ row _ (by omega)]
      exact ih (row + 1) _ (by simp)
        (fun r3 h3 => hval r3 (List.mem_cons_of_mem _ h3)) (by simp at hht2 ⊢; omega)

/-- The encoder writes a full row as its cell characters followed by a
newline. -/
theorem write_cells_row (wd : Nat) (hwd : 1 ≤ wd) :
    ∀ (r : List Bool) (rest : List Bool) (i : Nat),
      (i % wd) + r.length = wd →
      write_cells (r ++ rest) wd i =
        encRow r ++ '\n' :: write_cells rest wd (i + r.length) := by
  intro r
  induction r with
  | nil =>
    intro rest i h
    have hlt : i % wd < wd := Nat.mod_lt i (by omega)
    simp at h
    omega
  | cons b r ih =>
    intro rest i h
    have hlen : i % wd + (r.length + 1) = wd := by simpa using h
    rw [List.cons_append]
    simp only [write_cells]
    by_cases hr : r = []
    · subst hr
      rw [if_pos (by simp at hlen; omega)]
      simp [encRow]
    · have hrlen : 1 ≤ r.length := List.length_pos.mpr hr
      have hlt : i % wd + 1 < wd := by omega
      have hmod : (i + 1) % wd = i % wd + 1 := by
        have h1 : i + 1 = (i % wd + 1) + wd * (i / wd) := by
          have h0 := Nat.mod_add_div i wd
          omega
        rw [h1, Nat.add_mul_mod_self_left]
        exact Nat.mod_eq_of_lt hlt
      rw [if_neg (by omega)]
      rw [ih rest (i + 1) (by rw [hmod]; omega)]
      rw [show i + 1 + r.length = i + (r.length + 1) by omega]
      simp [encRow]

/-- The encoder loop on a whole sequence of full rows produces exactly the
newline-terminated row stream. -/
theorem write_cells_rows (wd : Nat) (hwd : 1 ≤ wd) :
    ∀ (rows : List (List Bool)) (i : Nat), i % wd = 0 →
      (∀ r ∈ rows, r.length = wd) →
      write_cells rows.flatten wd i = joinRowsNL (rows.map encRow) := by
  intro rows
  induction rows with
  | nil =>
    intro i _ _
    rfl
  | cons r rs ih =>
    intro i hi hval
    have hr : r.length = wd := hval r (List.mem_cons_self _ _)
    rw [List.flatten_cons]
    rw [write_cells_row wd hwd r rs.flatten i (by rw [hi, hr]; omega)]
    rw [ih (i + r.length) (by rw [hr, Nat.add_mod_right]; exact hi)
      (fun r2 h2 => hval r2 (List.mem_cons_of_mem _ h2))]
    simp [joinRowsNL]

/-- Decoding the encoded characters of a boolean row recovers the row. -/
theorem encRow_decode (r : List Bool) : (encRow r).map (fun ch => ch == '1') = r := by
  rw [encRow, List.map_map]
  conv_rhs => rw [← List.map_id r]
  rw [List.map_inj_left]
  intro a _
  cases a <;> decide

theorem headerChars_split : headerChars = "asciigol".toList ++ ['\n'] := by decide

/-- Reading the first line of a stream that starts with the header. -/
theorem getline_header (X : List Char) :
    getline (headerChars ++ X) = some (headerChars, X) := by
  rw [headerChars_split, List.append_assoc, List.singleton_append]
  exact getline_append_newline _ X (by decide)

theorem init_some (s : List Char) : init_cells_from_file (some s) = parse_stream s := rfl

theorem parse_stream_header (s rest : List Char)
    (h : getline s = some (headerChars, rest)) :
    parse_stream s = parse_afterHeader rest := by
  unfold parse_stream
  rw [h]
  show (if headerChars = headerChars then parse_afterHeader rest
      else (.badHeader, none)) = parse_afterHeader rest
  rw [if_pos rfl]

theorem parse_afterHeader_eq (rest line2 rest2 : List Char)
    (h : getline rest = some (line2, rest2)) :
    parse_afterHeader rest = parse_afterDims line2 rest2 := by
  unfold parse_afterHeader
  rw [h]

theorem parse_afterDims_ok (line2 rest2 : List Char) (wd ht : Nat)
    (h : checkDims line2 = .ok (wd, ht)) :
    parse_afterDims line2 rest2 = parse_body wd ht rest2 := by
  unfold parse_afterDims
  rw [h]

theorem parse_afterDims_err (line2 rest2 : List Char) (e : asciigol_result)
    (h : checkDims line2 = .error e) :
    parse_afterDims line2 rest2 = (e, none) := by
  unfold parse_afterDims
  rw [h]

theorem parse_body_ok (wd ht : Nat) (rest2 : List Char) (cells : List Bool)
    (h : readCells wd ht rest2 0 0 [] = .ok cells) :
    parse_body wd ht rest2 = (.ok, some (wd, ht, cells)) := by
  unfold parse_body
  rw [h]

theorem parse_body_err (wd ht : Nat) (rest2 : List Char) (e : asciigol_result)
    (h : readCells wd ht rest2 0 0 [] = .error e) :
    parse_body wd ht rest2 = (e, none) := by
  unfold parse_body
  rw [h]

/-- Reading the dimension line written by the encoder. -/
theorem getline_dim (a b : Nat) (Y : List Char) :
    getline ((toChars a ++ ',' :: toChars b) ++ '\n' :: Y) =
      some ((toChars a ++ ',' :: toChars b) ++ ['\n'], Y) := by
  refine getline_append_newline _ Y ?_
  intro hmem
  rw [List.mem_append, List.mem_cons] at hmem
  rcases hmem with hm | hm | hm
  · exact newline_not_mem_toChars a hm
  · exact absurd hm (by decide)
  · exact newline_not_mem_toChars b hm

/-- C5: For every valid grid within the supported dimension bounds,
serializing with the encoder of `src/asciigolgen.c` and decoding with the
parser of `src/asciigol.c` succeeds and returns the same width, height and
cell buffer. The grid is given as its list of rows; its flat buffer is the
row-major concatenation. -/
theorem parse_serialize_roundtrip (w h : Nat) (rows : List (List Bool))
    (hw1 : 1 ≤ w) (hw2 : w ≤ 250) (hh1 : 1 ≤ h) (hh2 : h ≤ 100)
    (hlen : rows.length = h) (hrows : ∀ r ∈ rows, r.length = w) :
    init_cells_from_file (some (write_config rows.flatten w h)) =
      (.ok, some (w, h, rows.flatten)) := by
  have hsplit : write_config rows.flatten w h =
      headerChars ++ ((toChars w ++ ',' :: toChars h) ++ '\n' ::
        write_cells rows.flatten w 0) := by
    unfold write_config
    simp
  have hdims : checkDims ((toChars w ++ ',' :: toChars h) ++ ['\n']) = .ok (w, h) := by
    rw [List.append_assoc, List.cons_append]
    exact checkDims_dim w h hw1 hw2 hh1 hh2
  have hvalid : ∀ r ∈ rows.map encRow, r.length = w ∧ ∀ ch ∈ r, ch = '0' ∨ ch = '1' := by
    intro r hr
    rw [List.mem_map] at hr
    obtain ⟨r0, hr0, rfl⟩ := hr
    refine ⟨?_, ?_⟩
    · rw [encRow, List.length_map]
      exact hrows r0 hr0
    · intro ch hch
      rw [encRow, List.mem_map] at hch
      obtain ⟨b, _, rfl⟩ := hch
      cases b
      · left; rfl
      · right; rfl
  have hflat : ((rows.map encRow).flatten).map (fun ch => ch == '1') = rows.flatten := by
    rw [List.map_flatten, List.map_map]
    congr 1
    conv_rhs => rw [← List.map_id rows]
    rw [List.map_inj_left]
    intro r _
    exact encRow_decode r
  have hcellsOK : readCells w h (write_cells rows.flatten w 0) 0 0 [] =
      .ok rows.flatten := by
    rw [write_cells_rows w (by omega) rows 0 (by simp) hrows]
    rw [readCells_joinNL w h (rows.map encRow) 0 [] hvalid (by simp [hlen])]
    rw [List.nil_append, hflat]
  rw [init_some]
  rw [hsplit, parse_stream_header _ _ (getline_header _),
    parse_afterHeader_eq _ _ _ (getline_dim w h _),
    parse_afterDims_ok _ _ w h hdims,
    parse_body_ok w h _ rows.flatten hcellsOK]

/-- Witness for C5 at a concrete 2-by-1 grid: encoding then decoding returns
the same grid. -/
theorem parse_serialize_roundtrip_witness :
    init_cells_from_file (some (write_config [true, false] 2 1)) =
      (.ok, some (2, 1, [true, false])) := by
  have h := parse_serialize_roundtrip 2 1 [[true, false]] (by norm_num) (by norm_num)
    (by norm_num) (by norm_num) (by simp) (by decide)
  simpa using h

/-- C9: A config stream with the correct header, a valid dimension line, and
exactly `height` rows of exactly `width` valid cell characters whose final
row is not terminated by a newline is rejected with a dimension error, since
rows are only counted when their newline is consumed. -/
theorem parse_missing_final_newline (w h : Nat) (rows : List (List Char))
    (hw1 : 1 ≤ w) (hw2 : w ≤ 250) (hh1 : 1 ≤ h) (hh2 : h ≤ 100)
    (hlen : rows.length = h)
    (hrows : ∀ r ∈ rows, r.length = w ∧ ∀ ch ∈ r, ch = '0' ∨ ch = '1') :
    init_cells_from_file (some (headerChars ++ ((toChars w ++ ',' :: toChars h) ++
      '\n' :: joinRowsNoNL rows))) = (.badDimension, none) := by
  have hne : rows ≠ [] := by
    intro he
    rw [he] at hlen
    simp at hlen
    omega
  have hdims : checkDims ((toChars w ++ ',' :: toChars h) ++ ['\n']) = .ok (w, h) := by
    rw [List.append_assoc, List.cons_append]
    exact checkDims_dim w h hw1 hw2 hh1 hh2
  have hfail : readCells w h (joinRowsNoNL rows) 0 0 [] = .error .badDimension :=
    readCells_joinNoNL w h rows 0 [] hne hrows (by omega)
  rw [init_some]
  rw [parse_stream_header _ _ (getline_header _),
    parse_afterHeader_eq _ _ _ (getline_dim w h _),
    parse_afterDims_ok _ _ w h hdims,
    parse_body_err w h _ .badDimension hfail]

/-- Witness for C9 at a concrete 1-by-1 stream whose single row lacks its
final newline. -/
theorem parse_missing_final_newline_witness :
    init_cells_from_file (some (headerChars ++ ((toChars 1 ++ ',' :: toChars 1) ++
      '\n' :: joinRowsNoNL [['1']]))) = (.badDimension, none) :=
  parse_missing_final_newline 1 1 [['1']] (by norm_num) (by norm_num) (by norm_num)
    (by norm_num) (by simp) (by decide)

/-- C6: The dimension line is rejected with a dimension error unless it scans
as two integers separated by a comma with width in 1..250 and height in
1..100; in particular any parsed width above 250 or height above 100, such as
the values 251..255 or 101..255, is rejected. -/
theorem checkDims_spec (line : List Char) :
    ((∃ wn hn : Int, sscanf_dd line = some (wn, hn) ∧ 0 < wn ∧ wn ≤ 250 ∧
        0 < hn ∧ hn ≤ 100 ∧ checkDims line = .ok (wn.toNat, hn.toNat)) ∨
      checkDims line = .error .badDimension) ∧
    (∀ wn hn : Int, sscanf_dd line = some (wn, hn) →
      (wn ≤ 0 ∨ 250 < wn ∨ hn ≤ 0 ∨ 100 < hn) →
      checkDims line = .error .badDimension) := by
  constructor
  · cases hs : sscanf_dd line with
    | none =>
      right
      unfold checkDims
      rw [hs]
    | some p =>
      obtain ⟨wn, hn⟩ := p
      by_cases hb : wn ≤ 0 ∨ wn > 250 ∨ hn ≤ 0 ∨ hn > 100
      · right
        rw [checkDims_eq line wn hn hs, if_pos hb]
      · left
        refine ⟨wn, hn, rfl, by omega, by omega, by omega, by omega, ?_⟩
        rw [checkDims_eq line wn hn hs, if_neg hb]
  · intro wn hn hs hb
    rw [checkDims_eq line wn hn hs, if_pos (by omega)]

/-- Witness for C6: the dimension line 251,50 declares a width of 251 and is
rejected with a dimension error. -/
theorem checkDims_spec_witness :
    checkDims ("251,50".toList) = .error .badDimension :=
  (checkDims_spec _).2 251 50 (by decide) (by omega)

/-- C7: Decode is atomic on failure: whenever the result code is not `ok`,
the cell-buffer reference handed back to the caller is null; no partial grid
escapes. -/
theorem parse_failure_no_partial (input : Option (List Char))
    (hfail : (init_cells_from_file input).1 ≠ .ok) :
    (init_cells_from_file input).2 = none := by
  cases input with
  | none => rfl
  | some s =>
    rw [init_some] at hfail ⊢
    cases hg : getline s with
    | none => simp [parse_stream, hg]
    | some p =>
      obtain ⟨line1, rest1⟩ := p
      by_cases h1 : line1 = headerChars
      · subst h1
        cases hg2 : getline rest1 with
        | none => simp [parse_stream, parse_afterHeader, hg, hg2]
        | some p2 =>
          obtain ⟨line2, rest2⟩ := p2
          cases hc : checkDims line2 with
          | error e =>
            simp [parse_stream, parse_afterHeader, parse_afterDims, hg, hg2, hc]
          | ok q =>
            obtain ⟨wd, ht⟩ := q
            cases hr : readCells wd ht rest2 0 0 [] with
            | error e =>
              simp [parse_stream, parse_afterHeader, parse_afterDims, parse_body,
                hg, hg2, hc, hr]
            | ok cells =>
              exfalso
              apply hfail
              simp [parse_stream, parse_afterHeader, parse_afterDims, parse_body,
                hg, hg2, hc, hr]
      · simp [parse_stream, hg, h1]

/-- Witness for C7 at a missing file: the result is an error and the buffer
reference is null. -/
theorem parse_failure_no_partial_witness :
    (init_cells_from_file none).2 = none :=
  parse_failure_no_partial none (by decide)

/-- C10: The dimension-line check is not strict about surrounding text:
trailing characters after the second integer and leading whitespace before
the first integer are accepted, and decode proceeds with the two parsed
integers as width and height. -/
theorem dim_line_lenient :
    checkDims ("3,3xyz".toList) = .ok (3, 3) ∧
    checkDims (" 3,3".toList) = .ok (3, 3) ∧
    init_cells_from_file (some ("asciigol\n3,3xyz\n111\n111\n111\n".toList)) =
      (.ok, some (3, 3, List.replicate 9 true)) ∧
    init_cells_from_file (some ("asciigol\n 3,3\n111\n111\n111\n".toList)) =
      (.ok, some (3, 3, List.replicate 9 true)) := by
  refine ⟨rfl, rfl, by decide, by decide⟩

end Asciigol
